import Mathlib

/-
Shallow embedding of howiechou/go-genaccessor, file src/genaccessor/genaccessor.go.

Modelling conventions:
- Go strings are Lean `String`s; the ASCII fragment of `unicode.IsLower` /
  `unicode.IsLetter` is modelled by `Char.isLower` / `Char.isAlpha`, and Go's
  byte-wise string comparison by the lexicographic `charListLe` below.
- The host parser (`go/parser.ParseDir`), the printer (`go/printer.Fprint`, whose
  output of a field's type is taken as the field's `typeText`), the struct-tag
  parser (`reflect.StructTag`, whose parsed key/value pairs are taken as the
  field's `tag`), and the formatter (`go/format.Source`, a parameter `fmtSource`)
  are external collaborators consumed as black boxes, per the spec's scope.
- `sort.Strings` / `sort.Slice` (deterministic sorts by a key) are modelled by
  insertion sort with the same key; the caller-supplied sink (`newWriter` plus
  the single `Write` call) is modelled by the `SinkEvent` trace.
- The index-out-of-range panic that Go raises on `field.Names[0]` for an
  anonymous field, and template/format failures, are modelled by `GenError`.
-/

deriving instance DecidableEq for Except

/-- Byte-wise (here: character-wise) lexicographic comparison, modelling Go's
`<`/`<=` on strings as used by `sort.Strings` and `sort.Slice`. -/
def charListLe : List Char → List Char → Bool
  | [], _ => true
  | _ :: _, [] => false
  | a :: as, b :: bs => if a < b then true else if b < a then false else charListLe as bs

/-- Sequential concatenation, modelling successive writes into a `bytes.Buffer`. -/
def strConcat : List String → String
  | [] => ""
  | s :: rest => s ++ strConcat rest

def splitOnCharAux (sep : Char) : List Char → List Char → List String
  | [], acc => [String.mk acc.reverse]
  | c :: rest, acc =>
    if c = sep then String.mk acc.reverse :: splitOnCharAux sep rest []
    else splitOnCharAux sep rest (c :: acc)

/-- Models `strings.Split(s, sep)` for a one-character separator. -/
def splitOnChar (sep : Char) (s : String) : List String :=
  splitOnCharAux sep s.data []

/-- Models `strings.Split(methodNamesText, ",")` (genaccessor.go line 126). -/
def splitComma (s : String) : List String := splitOnChar ',' s

/-- Characters kept by the `strings.FieldsFunc` scan of a type text
(genaccessor.go lines 129-131): letters and the dot. -/
def isTypeTokenChar (c : Char) : Bool := c.isAlpha || c = '.'

def typeTokensAux : List Char → List Char → List String
  | [], acc => if acc.isEmpty then [] else [String.mk acc.reverse]
  | c :: rest, acc =>
    if isTypeTokenChar c then typeTokensAux rest (c :: acc)
    else if acc.isEmpty then typeTokensAux rest []
    else String.mk acc.reverse :: typeTokensAux rest []

/-- Models `strings.FieldsFunc(fieldTypeText, fun c => !unicode.IsLetter(c) && c != '.')`:
the maximal runs of letters-or-dots in the printed type expression. -/
def typeTokens (s : String) : List String := typeTokensAux s.data []

/-- Models `strings.SplitN(s, ".", 2)` followed by the `len(ss) == 2` check
(lines 132-133): the qualifier before the first dot, when a dot is present. -/
def qualifierOf (tok : String) : Option String :=
  if tok.data.contains '.' then some (String.mk (tok.data.takeWhile (fun c => c != '.'))) else none

def quoteChar : Char := '\x22'

/-- Models `strings.Trim(v, "\x22")`. -/
def trimQuotes (s : String) : String :=
  String.mk (((s.data.dropWhile (fun c => c == quoteChar)).reverse.dropWhile
    (fun c => c == quoteChar)).reverse)

/-- Models `path.Base`. -/
def pathBase (p : String) : String :=
  if p.data.isEmpty then "."
  else
    let q := (p.data.reverse.dropWhile (fun c => c == '/')).reverse
    if q.isEmpty then "/"
    else String.mk ((q.reverse.takeWhile (fun c => c != '/')).reverse)

/-- The fixed initialism table (genaccessor.go lines 257-296); the map with all
values `true` is modelled as the list of its keys. -/
def commonInitialisms : List String :=
  ["acl", "api", "ascii", "cpu", "css", "dns", "eof", "guid", "html", "http", "https",
   "id", "ip", "json", "lhs", "qps", "ram", "rhs", "rpc", "sla", "smtp", "sql", "ssh",
   "tcp", "tls", "ttl", "udp", "ui", "uid", "uuid", "uri", "url", "utf8", "vm", "xml",
   "xmpp", "xsrf", "xss"]

/-- Models `toUpperCamel` (genaccessor.go lines 240-254). `List.findIdx` returns
the length when no character matches, matching the `firstNotLowerIndex == -1`
replacement by `len(s)`. -/
def toUpperCamel (s : String) : String :=
  if s = "" then s
  else
    let cs := s.data
    let firstNotLowerIndex := cs.findIdx (fun c => !c.isLower)
    if commonInitialisms.contains (String.mk (cs.take firstNotLowerIndex)) then
      String.mk ((cs.take firstNotLowerIndex).map Char.toUpper) ++
        String.mk (cs.drop firstNotLowerIndex)
    else
      String.mk ((cs.take 1).map Char.toUpper) ++ String.mk (cs.drop 1)

/-- An `*ast.ImportSpec`: optional explicit alias (`Name`) and the quoted path
literal (`Path.Value`, quotes included). -/
structure ImportSpec where
  name : Option String
  pathValue : String
deriving DecidableEq

/-- An `*ast.Field` of a struct: its name list (empty for an embedded/anonymous
field), the `printer.Fprint` text of its type, and the parsed struct tag
(`none` when `field.Tag == nil`). -/
structure StructField where
  names : List String
  typeText : String
  tag : Option (List (String × String))
deriving DecidableEq

/-- A `*ast.TypeSpec` whose `Type` is an `*ast.StructType`. -/
structure StructDecl where
  name : String
  fields : List StructField
deriving DecidableEq

/-- A spec of a `token.TYPE` declaration: struct-shaped or not (line 101-103). -/
inductive TypeSpec where
  | nonStruct (name : String)
  | structSpec (decl : StructDecl)
deriving DecidableEq

/-- A top-level declaration: a `token.TYPE` `*ast.GenDecl`, or anything else,
which the scan skips (lines 92-98). -/
inductive Decl where
  | other
  | typeDecl (specs : List TypeSpec)
deriving DecidableEq

/-- An `*ast.File`: declarations in source order plus `file.Imports`. -/
structure FileModel where
  decls : List Decl
  imports : List ImportSpec
deriving DecidableEq

/-- An `*ast.Package`: its name and its file map as an association list
(distinct file names) in arbitrary enumeration order. -/
structure PackageModel where
  name : String
  files : List (String × FileModel)
deriving DecidableEq

/-- Models `reflect.StructTag.Lookup` on the parsed key/value pairs: the first
occurrence of the key wins. -/
def tagLookup (key : String) : List (String × String) → Option String
  | [] => none
  | kv :: rest => if kv.1 = key then some kv.2 else tagLookup key rest

/-- Models the import-matching loop (lines 134-148): the first import of the
file whose explicit alias — or, for an unaliased import, the base of its
unquoted path — equals the qualifier. -/
def findImport (qualifier : String) : List ImportSpec → Option ImportSpec
  | [] => none
  | i :: rest =>
    match i.name with
    | none =>
        if pathBase (trimQuotes i.pathValue) = qualifier then some i
        else findImport qualifier rest
    | some aliasName =>
        if aliasName = qualifier then some i else findImport qualifier rest

/-- The import references appended for one field's type text (lines 129-149):
one per dotted token whose qualifier matches a file import. -/
def importsOfTypeText (fileImports : List ImportSpec) (typeText : String) : List ImportSpec :=
  (typeTokens typeText).filterMap (fun tok => (qualifierOf tok).bind (fun q => findImport q fileImports))

inductive MethodKind where
  | getter
  | setter
deriving DecidableEq

/-- The `tmplParam` struct (genaccessor.go lines 206-211). -/
structure TmplParam where
  structName : String
  methodName : String
  fieldType : String
  fieldName : String
deriving DecidableEq

/-- The two method templates (lines 220-224 and 229-233), rendered exactly,
byte for byte, including the raw-string indentation. -/
def renderMethod : MethodKind → TmplParam → String
  | .getter, p =>
    "\nfunc (m " ++ p.structName ++ ") " ++ p.methodName ++ "() " ++ p.fieldType ++
      " \x7b\n\t\t\t\treturn m." ++ p.fieldName ++ "\n\t\t\t\x7d\n\t\t"
  | .setter, p =>
    "\nfunc (m *" ++ p.structName ++ ") " ++ p.methodName ++ "(s " ++ p.fieldType ++
      ") \x7b\n\t\t\t\tm." ++ p.fieldName ++ " = s\n\t\t\t\x7d\n\t\t"

/-- One entry of the `genMethods` table (lines 213-238). -/
structure GenMethod where
  tagKey : String
  kind : MethodKind
  defaultMethodName : String → String

def getterMethod : GenMethod := ⟨"getter", .getter, toUpperCamel⟩

def setterMethod : GenMethod := ⟨"setter", .setter, fun fieldName => "Set" ++ toUpperCamel fieldName⟩

def genMethods : List GenMethod := [getterMethod, setterMethod]

/-- Lines 124-127: the default name when the tag value is empty, otherwise the
comma-separated explicit names. -/
def methodNamesFor (gm : GenMethod) (methodNamesText fieldName : String) : List String :=
  if methodNamesText = "" then [gm.defaultMethodName fieldName]
  else splitComma methodNamesText

/-- The template parameters of the methods generated for one field and one tag
key (lines 151-160). -/
def requestsOf (gm : GenMethod) (structName fieldName typeText v : String) : List TmplParam :=
  (methodNamesFor gm v fieldName).map (fun mn => ⟨structName, mn, typeText, fieldName⟩)

/-- The body text appended for one field and one tag key: the renders of all
its requests, in order. -/
def methodsTextOf (gm : GenMethod) (structName fieldName typeText v : String) : String :=
  strConcat ((requestsOf gm structName fieldName typeText v).map (renderMethod gm.kind))

inductive GenError where
  | indexOutOfRange
  | fmtFailed (msg : String)
deriving DecidableEq

/-- Sequencing of the scan: each item's contribution is appended to the body
buffer and the `importPackages` slice; an error (Go: a panic or returned error)
aborts the whole run. -/
def collectE {α : Type} (f : α → Except GenError (String × List ImportSpec)) :
    List α → Except GenError (String × List ImportSpec)
  | [] => .ok ("", [])
  | a :: rest =>
    match f a with
    | .error e => .error e
    | .ok (b1, i1) =>
      match collectE f rest with
      | .error e => .error e
      | .ok (b2, i2) => .ok (b1 ++ b2, i1 ++ i2)

/-- The body of the `for _, genMethod := range genMethods` loop (lines 118-161)
for one table entry: look the key up, evaluate `field.Names[0]` (index out of
range when the name list is empty — Go panics there), collect the references
of the type text and render the requested methods. -/
def perKeyGen (fileImports : List ImportSpec) (structName : String) (field : StructField)
    (tag : List (String × String)) (gm : GenMethod) : Except GenError (String × List ImportSpec) :=
  match tagLookup gm.tagKey tag with
  | none => .ok ("", [])
  | some v =>
    match field.names with
    | [] => .error .indexOutOfRange
    | fieldName :: _ =>
      .ok (methodsTextOf gm structName fieldName field.typeText v,
           importsOfTypeText fileImports field.typeText)

/-- Lines 105-161: a field without a tag is skipped; otherwise both table
entries are processed in order. -/
def fieldGen (fileImports : List ImportSpec) (structName : String) (field : StructField) :
    Except GenError (String × List ImportSpec) :=
  match field.tag with
  | none => .ok ("", [])
  | some tag => collectE (perKeyGen fileImports structName field tag) genMethods

/-- Lines 99-104: only struct-shaped type specs contribute. -/
def specGen (fileImports : List ImportSpec) : TypeSpec → Except GenError (String × List ImportSpec)
  | .nonStruct _ => .ok ("", [])
  | .structSpec sd => collectE (fieldGen fileImports sd.name) sd.fields

/-- Lines 91-98: only `token.TYPE` general declarations contribute. -/
def declGen (fileImports : List ImportSpec) : Decl → Except GenError (String × List ImportSpec)
  | .other => .ok ("", [])
  | .typeDecl specs => collectE (specGen fileImports) specs

def fileGen (file : FileModel) : Except GenError (String × List ImportSpec) :=
  collectE (declGen file.imports) file.decls

/-- Ordering of a package's files by name (lines 79-88): `sort.Strings` on the
map keys, modelled by insertion sort over the association list. -/
def fileLe (a b : String × FileModel) : Prop := charListLe a.1.data b.1.data = true

instance : DecidableRel fileLe := fun _ _ => instDecidableEqBool _ _

def sortFilesByName (files : List (String × FileModel)) : List (String × FileModel) :=
  files.insertionSort fileLe

/-- The per-package scan (lines 75-165): files in sorted name order, then the
nested declaration walk, accumulating the body text and `importPackages`. -/
def scanPackage (files : List (String × FileModel)) : Except GenError (String × List ImportSpec) :=
  collectE fileGen ((sortFilesByName files).map Prod.snd)

/-- Line 306: fewer than 3 `/`-separated segments of `Path.Value` and no dot. -/
def isShortImport (i : ImportSpec) : Bool :=
  decide ((splitOnChar '/' i.pathValue).length < 3) && !(i.pathValue.data.contains '.')

/-- `printer.Fprint` of an `*ast.ImportSpec`: optional alias, space, path literal. -/
def importSpecText (i : ImportSpec) : String :=
  match i.name with
  | some aliasName => aliasName ++ " " ++ i.pathValue
  | none => i.pathValue

def importLe (a b : ImportSpec) : Prop := charListLe a.pathValue.data b.pathValue.data = true

instance : DecidableRel importLe := fun _ _ => instDecidableEqBool _ _

/-- Lines 316-318: `sort.Slice` by `Path.Value`. -/
def sortImportsByPath (g : List ImportSpec) : List ImportSpec := g.insertionSort importLe

/-- Lines 314-333: one group's render — each sorted entry followed by a newline,
then one extra newline after the group. -/
def importGroupText (g : List ImportSpec) : String :=
  strConcat ((sortImportsByPath g).map (fun i => importSpecText i ++ "\n")) ++ "\n"

/-- The entries of the rendered import block, in render order: the sorted
"short" group then the sorted "other" group. -/
def fmtImportEntries (pkgs : List ImportSpec) : List ImportSpec :=
  sortImportsByPath (pkgs.filter isShortImport) ++
    sortImportsByPath (pkgs.filter (fun i => !isShortImport i))

/-- Models `fmtImports` (lines 298-340): empty text for no references,
otherwise the two groups rendered inside `import ( ... )`. -/
def fmtImports (pkgs : List ImportSpec) : String :=
  if pkgs.isEmpty then ""
  else
    "import (\n" ++
      strConcat ([pkgs.filter isShortImport, pkgs.filter (fun i => !isShortImport i)].map
        importGroupText) ++
      "\n\t\t)"

/-- The `out` template (lines 172-180), rendered byte for byte. -/
def assembleOutput (generatorName packageName importBlock body : String) : String :=
  "\n\t\t\t// Code generated by " ++ generatorName ++ "; DO NOT EDIT.\n\t\t\n\t\t\tpackage " ++
    packageName ++ "\n\t\t\n\t\t\t" ++ importBlock ++ "\n\t\t\n\t\t\t" ++ body ++ "\n\t\t"

/-- Observable sink interactions of one package: `newWriter(pkg)` and the single
`Write` of the formatted bytes (lines 194-200). -/
inductive SinkEvent where
  | openWriter
  | write (bytes : String)
deriving DecidableEq

/-- One iteration of the package loop of `Run` (lines 75-201): scan, skip when
the body is empty (line 166-168), assemble, format (the black-box
`format.Source` is the parameter `fmtSource`), then open the writer and write. -/
def runPackageEvents (fmtSource : String → Except String String) (generatorName : String)
    (pkg : PackageModel) : List SinkEvent × Except GenError Unit :=
  match scanPackage pkg.files with
  | .error e => ([], .error e)
  | .ok (body, importPackages) =>
    if body = "" then ([], .ok ())
    else
      match fmtSource (assembleOutput generatorName pkg.name (fmtImports importPackages) body) with
      | .error msg => ([], .error (.fmtFailed msg))
      | .ok str => ([.openWriter, .write str], .ok ())

/-- `Run` over the parsed packages in enumeration order: each package processed
fully before the next, aborting on the first error. -/
def Run (fmtSource : String → Except String String) (generatorName : String) :
    List PackageModel → List SinkEvent × Except GenError Unit
  | [] => ([], .ok ())
  | pkg :: rest =>
    match runPackageEvents fmtSource generatorName pkg with
    | (events, .error e) => (events, .error e)
    | (events, .ok ()) =>
      match Run fmtSource generatorName rest with
      | (events2, r) => (events ++ events2, r)

/-- A formatter that accepts everything unchanged, used for concrete runs. -/
def fmtId : String → Except String String := fun s => .ok s

/-- A field carries some recognized tag key ("getter" or "setter"). -/
def fieldHasGenTag (field : StructField) : Prop :=
  ∃ tag, field.tag = some tag ∧ ∃ gm ∈ genMethods, (tagLookup gm.tagKey tag).isSome = true

/-- The import reference `x` is referenced by the type text of some field, in
some struct declaration of some file of the package, that carries a recognized
tag key (and so generates at least one method using that type text). -/
def importJustified (files : List (String × FileModel)) (x : ImportSpec) : Prop :=
  ∃ nf ∈ files, ∃ d ∈ nf.2.decls, ∃ specs, d = Decl.typeDecl specs ∧
    ∃ sp ∈ specs, ∃ sd, sp = TypeSpec.structSpec sd ∧
      ∃ field ∈ sd.fields, fieldHasGenTag field ∧
        x ∈ importsOfTypeText nf.2.imports field.typeText

/-- Spec-side structured view of a generated method (section 4.4 of the spec):
receiver kind, name, parameter list, result type and body statement. -/
inductive Receiver where
  | value (typeName : String)
  | pointer (typeName : String)

def Receiver.text : Receiver → String
  | .value t => "m " ++ t
  | .pointer t => "m *" ++ t

inductive BodyStmt where
  | retExpr (e : String)
  | assign (lhs rhs : String)

def BodyStmt.text : BodyStmt → String
  | .retExpr e => "return " ++ e
  | .assign lhs rhs => lhs ++ " = " ++ rhs

def paramText (p : String × String) : String := p.1 ++ " " ++ p.2

def paramsText : List (String × String) → String
  | [] => ""
  | [p] => paramText p
  | p :: rest => paramText p ++ ", " ++ paramsText rest

def resultText : Option String → String
  | none => ""
  | some t => t ++ " "

structure MethodDecl where
  receiver : Receiver
  name : String
  params : List (String × String)
  result : Option String
  body : BodyStmt

/-- Generic rendering of the structured method declaration, in the templates'
layout. -/
def MethodDecl.text (d : MethodDecl) : String :=
  "\nfunc (" ++ d.receiver.text ++ ") " ++ d.name ++ "(" ++ paramsText d.params ++ ") " ++
    resultText d.result ++ "\x7b\n\t\t\t\t" ++ d.body.text ++ "\n\t\t\t\x7d\n\t\t"

/-- Concrete inputs used below: a file importing "time" with one struct `S`
whose field `t time.Time` carries both tags. -/
def timeImportSpec : ImportSpec := ⟨none, "\x22time\x22"⟩

def c1Field : StructField := ⟨["t"], "time.Time", some [("getter", ""), ("setter", "")]⟩

def c1File : FileModel :=
  ⟨[Decl.typeDecl [TypeSpec.structSpec ⟨"S", [c1Field]⟩]], [timeImportSpec]⟩

def c1Files : List (String × FileModel) := [("a.go", c1File)]

def c1Body : String :=
  renderMethod .getter ⟨"S", "T", "time.Time", "t"⟩ ++
    renderMethod .setter ⟨"S", "SetT", "time.Time", "t"⟩

/-- An embedded (anonymous) field — empty name list — carrying a getter tag. -/
def c2Package : PackageModel :=
  ⟨"p", [("a.go", ⟨[Decl.typeDecl [TypeSpec.structSpec ⟨"S", [⟨[], "time.Time", some [("getter", "")]⟩]⟩]],
    [timeImportSpec]⟩)]⟩

def c3FileA : FileModel :=
  ⟨[Decl.typeDecl [TypeSpec.structSpec ⟨"A", [⟨["x"], "int", some [("getter", "")]⟩]⟩]], []⟩

def c3FileB : FileModel :=
  ⟨[Decl.typeDecl [TypeSpec.structSpec ⟨"B", [⟨["y"], "string", some [("setter", "")]⟩]⟩]], []⟩

/-- A package whose only field has no tag: no generation request. -/
def c8Package : PackageModel :=
  ⟨"p", [("a.go", ⟨[Decl.typeDecl [TypeSpec.structSpec ⟨"S", [⟨["x"], "int", none⟩]⟩]], []⟩)]⟩

def c9Imports : List ImportSpec :=
  [⟨none, "\x22github.com/foo/bar\x22"⟩, ⟨none, "\x22time\x22"⟩, ⟨some "fmt2", "\x22fmt\x22"⟩]

/-- `List.take` up to the first index failing `p` is `List.takeWhile p`. -/
theorem take_findIdx_not (p : α → Bool) (l : List α) :
    l.take (l.findIdx fun a => !p a) = l.takeWhile p := by
  induction l with
  | nil => rfl
  | cons a l ih =>
    by_cases h : p a <;> simp [List.findIdx_cons, List.takeWhile_cons, h, ih]

/-- `List.drop` from the first index failing `p` is `List.dropWhile p`. -/
theorem drop_findIdx_not (p : α → Bool) (l : List α) :
    l.drop (l.findIdx fun a => !p a) = l.dropWhile p := by
  induction l with
  | nil => rfl
  | cons a l ih =>
    by_cases h : p a <;> simp [List.findIdx_cons, List.dropWhile_cons, h, ih]

theorem charListLe_total : ∀ a b : List Char, charListLe a b = true ∨ charListLe b a = true
  | [], b => by cases b <;> simp [charListLe]
  | _ :: _, [] => by simp [charListLe]
  | a :: as, b :: bs => by
    rcases lt_trichotomy a b with hab | hab | hab
    · left; simp [charListLe, hab]
    · subst hab
      rcases charListLe_total as bs with h | h <;> simp [charListLe, lt_irrefl, h]
    · right; simp [charListLe, hab]

theorem charListLe_trans :
    ∀ a b c : List Char, charListLe a b = true → charListLe b c = true → charListLe a c = true
  | [], _, c, _, _ => by cases c <;> simp [charListLe]
  | _ :: _, [], _, h1, _ => by simp [charListLe] at h1
  | _ :: _, _ :: _, [], _, h2 => by simp [charListLe] at h2
  | a :: as, b :: bs, c :: cs, h1, h2 => by
    by_cases hab : a < b
    · by_cases hbc : b < c
      · simp [charListLe, lt_trans hab hbc]
      · by_cases hcb : c < b
        · simp [charListLe, hbc, hcb] at h2
        · have hbc' : b = c := le_antisymm (not_lt.mp hcb) (not_lt.mp hbc)
          subst hbc'
          simp [charListLe, hab]
    · by_cases hba : b < a
      · simp [charListLe, hab, hba] at h1
      · have hab' : a = b := le_antisymm (not_lt.mp hba) (not_lt.mp hab)
        subst hab'
        have h1' : charListLe as bs = true := by simpa [charListLe, lt_irrefl] using h1
        by_cases hac : a < c
        · simp [charListLe, hac]
        · by_cases hca : c < a
          · simp [charListLe, hac, hca] at h2
          · have hac' : a = c := le_antisymm (not_lt.mp hca) (not_lt.mp hac)
            subst hac'
            have h2' : charListLe bs cs = true := by simpa [charListLe, lt_irrefl] using h2
            simp [charListLe, lt_irrefl, charListLe_trans as bs cs h1' h2']

theorem charListLe_antisymm :
    ∀ a b : List Char, charListLe a b = true → charListLe b a = true → a = b
  | [], [], _, _ => rfl
  | [], _ :: _, _, h2 => by simp [charListLe] at h2
  | _ :: _, [], h1, _ => by simp [charListLe] at h1
  | a :: as, b :: bs, h1, h2 => by
    by_cases hab : a < b
    · simp [charListLe, asymm hab, hab] at h2
    · by_cases hba : b < a
      · simp [charListLe, asymm hba, hba] at h1
      · have hab' : a = b := le_antisymm (not_lt.mp hba) (not_lt.mp hab)
        subst hab'
        have h1' : charListLe as bs = true := by simpa [charListLe, lt_irrefl] using h1
        have h2' : charListLe bs as = true := by simpa [charListLe, lt_irrefl] using h2
        rw [charListLe_antisymm as bs h1' h2']

/-- Unfolding equations of `collectE`. -/
theorem collectE_nil {α : Type} (f : α → Except GenError (String × List ImportSpec)) :
    collectE f [] = .ok ("", []) := rfl

theorem collectE_cons {α : Type} (f : α → Except GenError (String × List ImportSpec))
    (a : α) (rest : List α) :
    collectE f (a :: rest) =
      match f a with
      | .error e => .error e
      | .ok (b1, i1) =>
        match collectE f rest with
        | .error e => .error e
        | .ok (b2, i2) => .ok (b1 ++ b2, i1 ++ i2) := rfl

/-- Provenance of every accumulated import reference: it came from some item of
the collected list whose contribution contains it. -/
theorem collectE_ok_mem {α : Type} {f : α → Except GenError (String × List ImportSpec)} :
    ∀ {l : List α} {b : String} {imps : List ImportSpec},
      collectE f l = .ok (b, imps) → ∀ x ∈ imps,
        ∃ a ∈ l, ∃ b1 i1, f a = .ok (b1, i1) ∧ x ∈ i1 := by
  intro l
  induction l with
  | nil =>
    intro b imps h x hx
    rw [collectE_nil] at h
    simp only [Except.ok.injEq, Prod.mk.injEq] at h
    rw [← h.2] at hx
    simp at hx
  | cons a rest ih =>
    intro b imps h x hx
    rw [collectE_cons] at h
    rcases hfa : f a with e | ⟨b1, i1⟩ <;> rw [hfa] at h
    · simp at h
    · rcases hrest : collectE f rest with e | ⟨b2, i2⟩ <;> rw [hrest] at h
      · simp at h
      · simp only [Except.ok.injEq, Prod.mk.injEq] at h
        rw [← h.2] at hx
        rcases List.mem_append.mp hx with hx1 | hx2
        · exact ⟨a, List.mem_cons_self a rest, b1, i1, hfa, hx1⟩
        · obtain ⟨a2, ha2, b3, i3, hfa2, hx3⟩ := ih hrest x hx2
          exact ⟨a2, List.mem_cons_of_mem a ha2, b3, i3, hfa2, hx3⟩

/-- Completeness of the accumulation: when the collection succeeds, every item
succeeded and its contribution is contained in the result. -/
theorem collectE_ok_sub {α : Type} {f : α → Except GenError (String × List ImportSpec)} :
    ∀ {l : List α} {b : String} {imps : List ImportSpec},
      collectE f l = .ok (b, imps) → ∀ a ∈ l,
        ∃ b1 i1, f a = .ok (b1, i1) ∧ i1 ⊆ imps := by
  intro l
  induction l with
  | nil =>
    intro b imps _ a ha
    simp at ha
  | cons a rest ih =>
    intro b imps h a2 ha2
    rw [collectE_cons] at h
    rcases hfa : f a with e | ⟨b1, i1⟩ <;> rw [hfa] at h
    · simp at h
    · rcases hrest : collectE f rest with e | ⟨b2, i2⟩ <;> rw [hrest] at h
      · simp at h
      · simp only [Except.ok.injEq, Prod.mk.injEq] at h
        rcases List.mem_cons.mp ha2 with rfl | hmem
        · refine ⟨b1, i1, hfa, fun x hx => ?_⟩
          rw [← h.2]
          exact List.mem_append_left i2 hx
        · obtain ⟨b3, i3, hfa2, hsub⟩ := ih hrest a2 hmem
          refine ⟨b3, i3, hfa2, fun x hx => ?_⟩
          rw [← h.2]
          exact List.mem_append_right i1 (hsub hx)

theorem perKeyGen_ok_mem {fimps : List ImportSpec} {sname : String} {field : StructField}
    {tag : List (String × String)} {gm : GenMethod} {b1 : String} {i1 : List ImportSpec}
    (h : perKeyGen fimps sname field tag gm = .ok (b1, i1)) :
    ∀ x ∈ i1, (tagLookup gm.tagKey tag).isSome = true ∧
      x ∈ importsOfTypeText fimps field.typeText := by
  intro x hx
  unfold perKeyGen at h
  rcases hlk : tagLookup gm.tagKey tag with _ | v <;> rw [hlk] at h
  · simp only [Except.ok.injEq, Prod.mk.injEq] at h
    rw [← h.2] at hx
    simp at hx
  · rcases hn : field.names with _ | ⟨fn, rest⟩ <;> rw [hn] at h
    · simp at h
    · simp only [Except.ok.injEq, Prod.mk.injEq] at h
      rw [← h.2] at hx
      exact ⟨by simp [hlk], hx⟩

theorem fieldGen_ok_mem {fimps : List ImportSpec} {sname : String} {field : StructField}
    {b : String} {i : List ImportSpec} (h : fieldGen fimps sname field = .ok (b, i)) :
    ∀ x ∈ i, fieldHasGenTag field ∧ x ∈ importsOfTypeText fimps field.typeText := by
  intro x hx
  unfold fieldGen at h
  rcases htag : field.tag with _ | tag <;> rw [htag] at h
  · simp only [Except.ok.injEq, Prod.mk.injEq] at h
    rw [← h.2] at hx
    simp at hx
  · obtain ⟨gm, hgm, b1, i1, hok, hx1⟩ := collectE_ok_mem h x hx
    obtain ⟨hsome, hmem⟩ := perKeyGen_ok_mem hok x hx1
    exact ⟨⟨tag, htag, gm, hgm, hsome⟩, hmem⟩

theorem specGen_ok_mem {fimps : List ImportSpec} {sp : TypeSpec} {b : String}
    {i : List ImportSpec} (h : specGen fimps sp = .ok (b, i)) :
    ∀ x ∈ i, ∃ sd, sp = TypeSpec.structSpec sd ∧ ∃ field ∈ sd.fields,
      fieldHasGenTag field ∧ x ∈ importsOfTypeText fimps field.typeText := by
  intro x hx
  cases sp with
  | nonStruct nm =>
    simp only [specGen, Except.ok.injEq, Prod.mk.injEq] at h
    rw [← h.2] at hx
    simp at hx
  | structSpec sd =>
    obtain ⟨field, hf, b1, i1, hok, hx1⟩ := collectE_ok_mem (by simpa [specGen] using h) x hx
    obtain ⟨htag, hmem⟩ := fieldGen_ok_mem hok x hx1
    exact ⟨sd, rfl, field, hf, htag, hmem⟩

theorem declGen_ok_mem {fimps : List ImportSpec} {d : Decl} {b : String}
    {i : List ImportSpec} (h : declGen fimps d = .ok (b, i)) :
    ∀ x ∈ i, ∃ specs, d = Decl.typeDecl specs ∧ ∃ sp ∈ specs, ∃ sd,
      sp = TypeSpec.structSpec sd ∧ ∃ field ∈ sd.fields,
        fieldHasGenTag field ∧ x ∈ importsOfTypeText fimps field.typeText := by
  intro x hx
  cases d with
  | other =>
    simp only [declGen, Except.ok.injEq, Prod.mk.injEq] at h
    rw [← h.2] at hx
    simp at hx
  | typeDecl specs =>
    obtain ⟨sp, hsp, b1, i1, hok, hx1⟩ := collectE_ok_mem (by simpa [declGen] using h) x hx
    obtain ⟨sd, hsd, field, hf, htag, hmem⟩ := specGen_ok_mem hok x hx1
    exact ⟨specs, rfl, sp, hsp, sd, hsd, field, hf, htag, hmem⟩

theorem fileGen_ok_mem {file : FileModel} {b : String} {i : List ImportSpec}
    (h : fileGen file = .ok (b, i)) :
    ∀ x ∈ i, ∃ d ∈ file.decls, ∃ specs, d = Decl.typeDecl specs ∧ ∃ sp ∈ specs, ∃ sd,
      sp = TypeSpec.structSpec sd ∧ ∃ field ∈ sd.fields,
        fieldHasGenTag field ∧ x ∈ importsOfTypeText file.imports field.typeText := by
  intro x hx
  obtain ⟨d, hd, b1, i1, hok, hx1⟩ := collectE_ok_mem (by simpa [fileGen] using h) x hx
  obtain ⟨specs, hspecs, sp, hsp, sd, hsd, field, hf, htag, hmem⟩ := declGen_ok_mem hok x hx1
  exact ⟨d, hd, specs, hspecs, sp, hsp, sd, hsd, field, hf, htag, hmem⟩

theorem scanPackage_ok_mem {files : List (String × FileModel)} {b : String}
    {imps : List ImportSpec} (h : scanPackage files = .ok (b, imps)) :
    ∀ x ∈ imps, importJustified files x := by
  intro x hx
  obtain ⟨file, hfmem, b1, i1, hok, hx1⟩ := collectE_ok_mem (by simpa [scanPackage] using h) x hx
  obtain ⟨nf, hnf, hsnd⟩ := List.mem_map.mp hfmem
  have hnf2 : nf ∈ files := (List.perm_insertionSort fileLe files).subset hnf
  rw [← hsnd] at hok
  obtain ⟨d, hd, specs, hspecs, sp, hsp, sd, hsd, field, hf, htag, hmem⟩ :=
    fileGen_ok_mem hok x hx1
  exact ⟨nf, hnf2, d, hd, specs, hspecs, sp, hsp, sd, hsd, field, hf, htag, hmem⟩

theorem scanPackage_ok_sub {files : List (String × FileModel)} {b : String}
    {imps : List ImportSpec} (h : scanPackage files = .ok (b, imps)) :
    ∀ nf ∈ files, ∀ d ∈ nf.2.decls, ∀ specs, d = Decl.typeDecl specs →
      ∀ sp ∈ specs, ∀ sd, sp = TypeSpec.structSpec sd →
      ∀ field ∈ sd.fields, ∀ tag, field.tag = some tag →
      ∀ gm ∈ genMethods, (tagLookup gm.tagKey tag).isSome = true →
      importsOfTypeText nf.2.imports field.typeText ⊆ imps := by
  intro nf hnf d hd specs hspecs sp hsp sd hsd field hfield tag htag gm hgm hlk
  subst hspecs
  subst hsd
  have hnfs : nf ∈ sortFilesByName files := (List.perm_insertionSort fileLe files).symm.subset hnf
  have hmem : nf.2 ∈ (sortFilesByName files).map Prod.snd := List.mem_map_of_mem Prod.snd hnfs
  have hscan : collectE fileGen ((sortFilesByName files).map Prod.snd) = .ok (b, imps) := by
    simpa [scanPackage] using h
  obtain ⟨bf, iF, hfok, hsubF⟩ := collectE_ok_sub hscan nf.2 hmem
  have hfok2 : collectE (declGen nf.2.imports) nf.2.decls = .ok (bf, iF) := by
    simpa [fileGen] using hfok
  obtain ⟨bd, iD, hdok, hsubD⟩ := collectE_ok_sub hfok2 (Decl.typeDecl specs) hd
  have hdok2 : collectE (specGen nf.2.imports) specs = .ok (bd, iD) := by
    simpa [declGen] using hdok
  obtain ⟨bs, iS, hsok, hsubS⟩ := collectE_ok_sub hdok2 (TypeSpec.structSpec sd) hsp
  have hsok2 : collectE (fieldGen nf.2.imports sd.name) sd.fields = .ok (bs, iS) := by
    simpa [specGen] using hsok
  obtain ⟨bfd, iFd, hfdok, hsubFd⟩ := collectE_ok_sub hsok2 field hfield
  have hfdok2 : collectE (perKeyGen nf.2.imports sd.name field tag) genMethods =
      .ok (bfd, iFd) := by
    simpa [fieldGen, htag] using hfdok
  obtain ⟨v, hv⟩ := Option.isSome_iff_exists.mp hlk
  obtain ⟨bk, iK, hkok, hsubK⟩ := collectE_ok_sub hfdok2 gm hgm
  rcases hn : field.names with _ | ⟨fn, rest⟩
  · simp [perKeyGen, hv, hn] at hkok
  · have hik : iK = importsOfTypeText nf.2.imports field.typeText := by
      simp only [perKeyGen, hv, hn, Except.ok.injEq, Prod.mk.injEq] at hkok
      exact hkok.2.symm
    intro x hx
    exact hsubF (hsubD (hsubS (hsubFd (hsubK (hik ▸ hx)))))

/-- The name-sorted file list is sorted strictly when the file names are
distinct (they are map keys in the source). -/
theorem sortFilesByName_sorted_strict (l : List (String × FileModel))
    (h : (l.map Prod.fst).Nodup) :
    (sortFilesByName l).Pairwise (fun a b => fileLe a b ∧ a.1 ≠ b.1) := by
  haveI : IsTotal (String × FileModel) fileLe := ⟨fun a b => charListLe_total _ _⟩
  haveI : IsTrans (String × FileModel) fileLe :=
    ⟨fun a b c h1 h2 => charListLe_trans _ _ _ h1 h2⟩
  have hs : (sortFilesByName l).Pairwise fileLe := List.sorted_insertionSort fileLe l
  have hp : ((sortFilesByName l).map Prod.fst).Perm (l.map Prod.fst) :=
    (List.perm_insertionSort fileLe l).map Prod.fst
  have hn : ((sortFilesByName l).map Prod.fst).Nodup := hp.nodup_iff.mpr h
  have hne : (sortFilesByName l).Pairwise (fun a b => a.1 ≠ b.1) := List.pairwise_map.mp hn
  exact hs.and hne

/-- Sorting by file name is invariant under the enumeration order of the file
map, given distinct file names. -/
theorem sortFilesByName_perm_eq (l1 l2 : List (String × FileModel)) (hperm : l1.Perm l2)
    (hnodup : (l1.map Prod.fst).Nodup) : sortFilesByName l1 = sortFilesByName l2 := by
  haveI : IsAntisymm (String × FileModel) (fun a b => fileLe a b ∧ a.1 ≠ b.1) :=
    ⟨fun a b h1 h2 => absurd (String.ext (charListLe_antisymm _ _ h1.1 h2.1)) h1.2⟩
  have hn2 : (l2.map Prod.fst).Nodup := ((hperm.map Prod.fst).nodup_iff).mp hnodup
  exact List.eq_of_perm_of_sorted
    (((List.perm_insertionSort fileLe l1).trans hperm).trans
      (List.perm_insertionSort fileLe l2).symm)
    (sortFilesByName_sorted_strict l1 hnodup)
    (sortFilesByName_sorted_strict l2 hn2)

/-- C1 (amended): import references are collected once per matching qualifier
occurrence, per field and per recognized tag key present, with no
deduplication by package path before rendering; the rendered import block
contains exactly one entry per collected reference (a permutation of the
collected list), it never contains a package that no tagged field's generated
type expression references, and it never omits a collected reference. -/
theorem c1_theorem (pkgs : List ImportSpec) (files : List (String × FileModel)) (b : String)
    (imps : List ImportSpec) (hscan : scanPackage files = .ok (b, imps)) :
    (fmtImportEntries pkgs).Perm pkgs ∧
    (∀ x ∈ imps, importJustified files x) ∧
    (∀ nf ∈ files, ∀ d ∈ nf.2.decls, ∀ specs, d = Decl.typeDecl specs →
      ∀ sp ∈ specs, ∀ sd, sp = TypeSpec.structSpec sd →
      ∀ field ∈ sd.fields, ∀ tag, field.tag = some tag →
      ∀ gm ∈ genMethods, (tagLookup gm.tagKey tag).isSome = true →
      importsOfTypeText nf.2.imports field.typeText ⊆ imps) := by
  refine ⟨?_, scanPackage_ok_mem hscan, scanPackage_ok_sub hscan⟩
  have h0 := List.perm_insertionSort importLe (pkgs.filter isShortImport)
  have h1 := List.perm_insertionSort importLe (pkgs.filter (fun i => !isShortImport i))
  exact (h0.append h1).trans (List.filter_append_perm isShortImport pkgs)

theorem c1_witness :
    (fmtImportEntries [timeImportSpec]).Perm [timeImportSpec] ∧
    importJustified c1Files timeImportSpec :=
  ⟨(c1_theorem [timeImportSpec] c1Files c1Body [timeImportSpec, timeImportSpec] rfl).1,
   (c1_theorem [timeImportSpec] c1Files c1Body [timeImportSpec, timeImportSpec] rfl).2.1
     timeImportSpec (List.mem_cons_self _ _)⟩

/-- C1 counterexample: one field tagged with both `getter` and `setter` whose
type references `time` yields the import reference twice — nothing
deduplicates by package path before rendering, and the rendered import block
contains the path `"time"` twice. -/
theorem c1_counterexample :
    scanPackage c1Files = .ok (c1Body, [timeImportSpec, timeImportSpec]) ∧
    ((fmtImportEntries [timeImportSpec, timeImportSpec]).map (fun i => i.pathValue)).count
      "\x22time\x22" = 2 :=
  ⟨rfl, by decide⟩

/-- C2 (code bug): an embedded/anonymous field (empty name list) whose tag
carries the recognized key `getter` makes the scan evaluate `field.Names[0]`,
an index out of range — Go panics, the run aborts, nothing is written. The
spec says such a field is skipped gracefully and never a hard error. -/
theorem c2_theorem :
    Run fmtId "go-genaccessor" [c2Package] = ([], .error .indexOutOfRange) := rfl

/-- C3 (confirmed): per package, the produced output is a deterministic
function of the parsed input — the scan sorts files by name, so the result is
invariant under the enumeration order of the file map (whose keys are
distinct), and rerunning on unchanged input gives identical bytes. -/
theorem c3_theorem (fmtSource : String → Except String String) (g n : String)
    (l1 l2 : List (String × FileModel)) (hperm : l1.Perm l2)
    (hnodup : (l1.map Prod.fst).Nodup) :
    runPackageEvents fmtSource g ⟨n, l1⟩ = runPackageEvents fmtSource g ⟨n, l2⟩ := by
  have hs : sortFilesByName l1 = sortFilesByName l2 := sortFilesByName_perm_eq l1 l2 hperm hnodup
  simp only [runPackageEvents, scanPackage, hs]

theorem c3_witness :
    runPackageEvents fmtId "go-genaccessor" ⟨"p", [("a.go", c3FileA), ("b.go", c3FileB)]⟩ =
      runPackageEvents fmtId "go-genaccessor" ⟨"p", [("b.go", c3FileB), ("a.go", c3FileA)]⟩ :=
  c3_theorem fmtId "go-genaccessor" "p" _ _
    (List.Perm.swap ("b.go", c3FileB) ("a.go", c3FileA) []) (by decide)

/-- C4 (confirmed): a getter tag present with empty value requests exactly one
method named the upper-camel form of the field name; a setter tag present with
empty value requests exactly one method named `"Set"` + that form; a field
carrying both tags with empty values generates exactly those two methods. -/
theorem c4_theorem (fimps : List ImportSpec) (s fn T : String) (ns : List String)
    (tag : List (String × String)) (hg : tagLookup "getter" tag = some "")
    (hst : tagLookup "setter" tag = some "") :
    requestsOf getterMethod s fn T "" = [⟨s, toUpperCamel fn, T, fn⟩] ∧
    requestsOf setterMethod s fn T "" = [⟨s, "Set" ++ toUpperCamel fn, T, fn⟩] ∧
    fieldGen fimps s ⟨fn :: ns, T, some tag⟩ =
      .ok (renderMethod .getter ⟨s, toUpperCamel fn, T, fn⟩ ++
             renderMethod .setter ⟨s, "Set" ++ toUpperCamel fn, T, fn⟩,
           importsOfTypeText fimps T ++ importsOfTypeText fimps T) := by
  refine ⟨by simp [requestsOf, methodNamesFor, getterMethod],
    by simp [requestsOf, methodNamesFor, setterMethod], ?_⟩
  simp [fieldGen, genMethods, collectE, perKeyGen, getterMethod, setterMethod, hg, hst,
    methodsTextOf, requestsOf, methodNamesFor, strConcat, String.append_assoc]

theorem c4_witness :
    fieldGen [] "S" ⟨["name"], "string", some [("getter", ""), ("setter", "")]⟩ =
      .ok (renderMethod .getter ⟨"S", "Name", "string", "name"⟩ ++
             renderMethod .setter ⟨"S", "SetName", "string", "name"⟩, []) :=
  (c4_theorem [] "S" "name" "string" [] [("getter", ""), ("setter", "")] rfl rfl).2.2

/-- C5 (confirmed): when the leading run of lowercase letters of a field name
is one of the fixed initialisms, `toUpperCamel` upper-cases that whole run;
for every other non-empty name only the first character is upper-cased. -/
theorem c5_theorem (s : String) (h : s ≠ "") :
    (commonInitialisms.contains (String.mk (s.data.takeWhile Char.isLower)) = true →
      toUpperCamel s = String.mk ((s.data.takeWhile Char.isLower).map Char.toUpper) ++
        String.mk (s.data.dropWhile Char.isLower)) ∧
    (commonInitialisms.contains (String.mk (s.data.takeWhile Char.isLower)) = false →
      toUpperCamel s = String.mk ((s.data.take 1).map Char.toUpper) ++
        String.mk (s.data.drop 1)) := by
  have ht : s.data.take (s.data.findIdx fun c => !Char.isLower c) = s.data.takeWhile Char.isLower :=
    take_findIdx_not Char.isLower s.data
  have hd : s.data.drop (s.data.findIdx fun c => !Char.isLower c) = s.data.dropWhile Char.isLower :=
    drop_findIdx_not Char.isLower s.data
  constructor <;> intro hc
  · have hc2 : String.mk (s.data.takeWhile Char.isLower) ∈ commonInitialisms := by simpa using hc
    simp [toUpperCamel, h, ht, hd, hc2]
  · have hc2 : String.mk (s.data.takeWhile Char.isLower) ∉ commonInitialisms := by simpa using hc
    simp [toUpperCamel, h, ht, hd, hc2]

theorem c5_witness :
    toUpperCamel "urlPath" = "URLPath" ∧ toUpperCamel "id" = "ID" ∧
    toUpperCamel "name" = "Name" := by
  have h1 := c5_theorem "urlPath" (by decide)
  have h2 := c5_theorem "id" (by decide)
  have h3 := c5_theorem "name" (by decide)
  exact ⟨h1.1 (by decide), h2.1 (by decide), h3.2 (by decide)⟩

/-- C6 (confirmed): a non-empty recognized tag value is split on commas and
exactly that many methods are requested, one per listed name, all sharing the
same struct, type and field parameters (identical body shape); distinct listed
names give pairwise-distinct requests. -/
theorem c6_theorem (s fn T v : String) (hv : v ≠ "") :
    methodNamesFor getterMethod v fn = splitComma v ∧
    methodNamesFor setterMethod v fn = splitComma v ∧
    requestsOf getterMethod s fn T v = (splitComma v).map (fun mn => ⟨s, mn, T, fn⟩) ∧
    (requestsOf getterMethod s fn T v).length = (splitComma v).length ∧
    (requestsOf getterMethod s fn T v).map (fun r => r.methodName) = splitComma v ∧
    ((splitComma v).Nodup → (requestsOf getterMethod s fn T v).Nodup) := by
  have h1 : methodNamesFor getterMethod v fn = splitComma v := by simp [methodNamesFor, hv]
  have h2 : methodNamesFor setterMethod v fn = splitComma v := by simp [methodNamesFor, hv]
  refine ⟨h1, h2, by simp [requestsOf, h1], by simp [requestsOf, h1], ?_, ?_⟩
  · have hcomp : ((fun r : TmplParam => r.methodName) ∘
        fun mn => (⟨s, mn, T, fn⟩ : TmplParam)) = id := by
      funext mn; rfl
    simp [requestsOf, h1, List.map_map, hcomp]
  · intro hnd
    rw [requestsOf, h1]
    exact hnd.map (fun a b hab => by simpa using congrArg TmplParam.methodName hab)

theorem c6_witness :
    requestsOf getterMethod "S" "f" "int" "GetX,GetY" =
      (splitComma "GetX,GetY").map (fun mn => ⟨"S", mn, "int", "f"⟩) ∧
    (requestsOf getterMethod "S" "f" "int" "GetX,GetY").length = (splitComma "GetX,GetY").length := by
  have h := c6_theorem "S" "f" "int" "GetX,GetY" (by decide)
  exact ⟨h.2.2.1, h.2.2.2.1⟩

/-- C7 (confirmed): the getter template renders a value-receiver method with
the requested name, no parameters, the field's type as result, whose body
returns the receiver's field; the setter template renders a pointer-receiver
method with the requested name, one parameter of the field's type, no result,
whose body assigns the parameter into the receiver's field. -/
theorem c7_theorem (p : TmplParam) :
    renderMethod .getter p =
      MethodDecl.text ⟨.value p.structName, p.methodName, [], some p.fieldType,
        .retExpr ("m." ++ p.fieldName)⟩ ∧
    renderMethod .setter p =
      MethodDecl.text ⟨.pointer p.structName, p.methodName, [("s", p.fieldType)], none,
        .assign ("m." ++ p.fieldName) "s"⟩ := by
  constructor <;>
    (apply String.ext
     simp only [renderMethod, MethodDecl.text, Receiver.text, BodyStmt.text, paramsText,
       paramText, resultText, String.data_append, List.append_assoc]
     rfl)

/-- C8 (confirmed): a package whose scan accumulates an empty method-body text
(no field produced a generation request) is skipped entirely — no output unit,
no sink interaction: the writer is never opened and nothing is written. -/
theorem c8_theorem (fmtSource : String → Except String String) (generatorName : String)
    (pkg : PackageModel) (imps : List ImportSpec)
    (h : scanPackage pkg.files = .ok ("", imps)) :
    runPackageEvents fmtSource generatorName pkg = ([], .ok ()) := by
  simp [runPackageEvents, h]

theorem c8_witness :
    runPackageEvents fmtId "go-genaccessor" c8Package = ([], .ok ()) :=
  c8_theorem fmtId "go-genaccessor" c8Package [] rfl

/-- C9 (confirmed): for a non-empty reference set, the rendered import block
consists of a "short" group (path of fewer than three segments and no dot)
followed by the "other" group, each group's block sorted lexicographically by
path literal and closed by an extra newline (the blank separator line); each
block holds exactly its group's entries; the empty reference set renders as
empty text. -/
theorem c9_theorem (pkgs : List ImportSpec) :
    fmtImports [] = "" ∧
    (pkgs ≠ [] →
      fmtImports pkgs = "import (\n" ++ importGroupText (pkgs.filter isShortImport) ++
        importGroupText (pkgs.filter (fun i => !isShortImport i)) ++ "\n\t\t)") ∧
    List.Sorted importLe (sortImportsByPath (pkgs.filter isShortImport)) ∧
    List.Sorted importLe (sortImportsByPath (pkgs.filter (fun i => !isShortImport i))) ∧
    (sortImportsByPath (pkgs.filter isShortImport)).Perm (pkgs.filter isShortImport) ∧
    (sortImportsByPath (pkgs.filter (fun i => !isShortImport i))).Perm
      (pkgs.filter (fun i => !isShortImport i)) := by
  haveI : IsTotal ImportSpec importLe := ⟨fun a b => charListLe_total _ _⟩
  haveI : IsTrans ImportSpec importLe := ⟨fun a b c h1 h2 => charListLe_trans _ _ _ h1 h2⟩
  refine ⟨rfl, ?_, List.sorted_insertionSort importLe _, List.sorted_insertionSort importLe _,
    List.perm_insertionSort importLe _, List.perm_insertionSort importLe _⟩
  intro hne
  rcases pkgs with _ | ⟨p, rest⟩
  · exact absurd rfl hne
  · simp [fmtImports, strConcat, String.append_assoc]

theorem c9_witness :
    c9Imports ≠ [] ∧
    fmtImports c9Imports = "import (\n" ++ importGroupText (c9Imports.filter isShortImport) ++
      importGroupText (c9Imports.filter (fun i => !isShortImport i)) ++ "\n\t\t)" :=
  ⟨by decide, (c9_theorem c9Imports).2.1 (by decide)⟩

/-- C10 (confirmed): per package, either the run ends for it with no sink
interaction at all (it is skipped, or it aborts with an error before any
write), or the assembled output unit passes the formatter fully and the sink
sees exactly one open followed by one write of the complete formatted bytes —
never a partial write. -/
theorem c10_theorem (fmtSource : String → Except String String) (generatorName : String)
    (pkg : PackageModel) :
    (∃ e, runPackageEvents fmtSource generatorName pkg = ([], .error e)) ∨
    runPackageEvents fmtSource generatorName pkg = ([], .ok ()) ∨
    (∃ u s, fmtSource u = .ok s ∧
      runPackageEvents fmtSource generatorName pkg = ([.openWriter, .write s], .ok ())) := by
  rcases hscan : scanPackage pkg.files with e | ⟨body, imps⟩
  · exact .inl ⟨e, by simp [runPackageEvents, hscan]⟩
  · by_cases hb : body = ""
    · exact .inr (.inl (by simp [runPackageEvents, hscan, hb]))
    · rcases hfmt : fmtSource (assembleOutput generatorName pkg.name (fmtImports imps) body)
        with msg | str
      · exact .inl ⟨.fmtFailed msg, by simp [runPackageEvents, hscan, hb, hfmt]⟩
      · exact .inr (.inr ⟨_, str, hfmt, by simp [runPackageEvents, hscan, hb, hfmt]⟩)
